import Mathlib

/-!
Verification development for the cloudrunner repository: a shallow
embedding of the staged parallel test orchestrator and ramp-up driver
(`src/AwsRunner.py`, `src/libs/utils.py`,
`src/libs/testFramework/classicTest.py`,
`src/tests/AwsRunner/AwsRunner.py`) together with theorems settling the
frozen claims about it.

Modelling conventions:
* strings are `List Char`; Python 2 `str` here is ASCII text;
* Python 2 `/` on nonnegative `int`s is floor division, embedded as
  `Nat` division;
* remote-host effects (SSH commands, thread scheduling) are captured by
  an `Env` of per-level, per-unit phase outcomes; the driver itself is
  single-threaded and joins every worker of a phase before the next
  phase starts, so the inter-phase behaviour is a sequential function of
  those outcomes.
-/

namespace CloudRunner

/-! ### Timing-output parsing (`TestInstance._get_time_ms`, `TestInstance.parse_output`) -/

/-- Python `\s` on ASCII text: space, tab, newline, carriage return,
vertical tab, form feed. -/
def isPySpace (c : Char) : Bool :=
  c == ' ' || c == '\t' || c == '\n' || c == '\r' || c == '\x0b' || c == '\x0c'

/-- Python `int()` applied to a captured (nonempty, decimal) digit group. -/
def digitsToNat (ds : List Char) : Nat :=
  ds.foldl (fun n c => n * 10 + (c.toNat - '0'.toNat)) 0

/-- `TestInstance._get_time_ms`: minutes, seconds and the fractional
digit group (used directly as a millisecond count) added up. -/
def getTimeMs (minutes seconds millisec : Nat) : Nat :=
  minutes * 60 * 1000 + seconds * 1000 + millisec

/-- Match the regex `real\s+(\d+)m(\d+)\.(\d+)s` at the head of `s`,
returning the three captured groups.  Maximal munch agrees with the
regex engine's backtracking here because each `+`-quantified character
class is disjoint from the literal that follows it. -/
def matchTimeAt (s : List Char) : Option (Nat × Nat × Nat) :=
  match s with
  | 'r' :: 'e' :: 'a' :: 'l' :: rest =>
    let sp := rest.span isPySpace
    if sp.1.isEmpty then none else
    let d1 := sp.2.span Char.isDigit
    if d1.1.isEmpty then none else
    match d1.2 with
    | 'm' :: rest3 =>
      let d2 := rest3.span Char.isDigit
      if d2.1.isEmpty then none else
      match d2.2 with
      | '.' :: rest5 =>
        let d3 := rest5.span Char.isDigit
        if d3.1.isEmpty then none else
        match d3.2 with
        | 's' :: _ => some (digitsToNat d1.1, digitsToNat d2.1, digitsToNat d3.1)
        | _ => none
      | _ => none
    | _ => none
  | _ => none

/-- `re.search` with the fixed time pattern: try every start position,
leftmost match wins. -/
def searchTime : List Char → Option (Nat × Nat × Nat)
  | [] => none
  | c :: rest =>
    match matchTimeAt (c :: rest) with
    | some r => some r
    | none => searchTime rest

/-- Literal-substring test used to state claims of the form "a text
containing ...". -/
def listStartsWith : List Char → List Char → Bool
  | _, [] => true
  | [], _ :: _ => false
  | a :: as, b :: bs => a == b && listStartsWith as bs

/-- Membership of `needle` as a contiguous run inside `hay`. -/
def containsSeq (needle : List Char) : List Char → Bool
  | [] => needle.isEmpty
  | c :: rest => listStartsWith (c :: rest) needle || containsSeq needle rest

/-- `RunResult.__init__`: statuses start `False`, durations `0`.
`resultId` stands for the constructor's `resultId` argument. -/
structure RunResult where
  resultId : Nat
  file_create_time_ms : Nat := 0
  file_create_status : Bool := false
  file_read_time_ms : Nat := 0
  file_read_status : Bool := false
  file_delete_time_ms : Nat := 0
  file_delete_status : Bool := false
deriving DecidableEq

/-- `TestInstance.parse_output`: for each of the three texts, search for
the time pattern; on a match set the status `True` and the duration from
`_get_time_ms`, otherwise set the status `False` (leaving the duration
at its initial `0`). -/
def parse_output (rid : Nat) (create_output read_output delete_output : List Char) :
    RunResult :=
  let r0 : RunResult := { resultId := rid }
  let r1 :=
    match searchTime create_output with
    | some (m, s, ms) =>
      { r0 with file_create_status := true, file_create_time_ms := getTimeMs m s ms }
    | none => { r0 with file_create_status := false }
  let r2 :=
    match searchTime read_output with
    | some (m, s, ms) =>
      { r1 with file_read_status := true, file_read_time_ms := getTimeMs m s ms }
    | none => { r1 with file_read_status := false }
  match searchTime delete_output with
  | some (m, s, ms) =>
    { r2 with file_delete_status := true, file_delete_time_ms := getTimeMs m s ms }
  | none => { r2 with file_delete_status := false }

/-! ### Per-level aggregation (`RunAverages.__init__`) -/

/-- The fields of a `RunAverages` object after `__init__` finishes. -/
structure RunAverages where
  total_create_pass : Nat
  total_create_fail : Nat
  total_create_time_ms : Nat
  average_create_time_ms : Int
  total_read_pass : Nat
  total_read_fail : Nat
  total_read_time_ms : Nat
  average_read_time_ms : Int
  total_delete_pass : Nat
  total_delete_fail : Nat
  average_delete_time_ms : Int
  total_delete_time_ms : Nat
  run_id : Nat
deriving DecidableEq

/-- The counter state threaded through the `for report in
run_result_list` loop of `RunAverages.__init__`. -/
structure AvgAcc where
  cp : Nat := 0
  cf : Nat := 0
  ct : Nat := 0
  rp : Nat := 0
  rf : Nat := 0
  rt : Nat := 0
  dp : Nat := 0
  df : Nat := 0
  dt : Nat := 0
deriving DecidableEq

/-- One iteration of the counting loop in `RunAverages.__init__`. -/
def avgStep (acc : AvgAcc) (report : RunResult) : AvgAcc :=
  let a1 :=
    if report.file_create_status then
      { acc with cp := acc.cp + 1, ct := acc.ct + report.file_create_time_ms }
    else { acc with cf := acc.cf + 1 }
  let a2 :=
    if report.file_read_status then
      { a1 with rp := a1.rp + 1, rt := a1.rt + report.file_read_time_ms }
    else { a1 with rf := a1.rf + 1 }
  if report.file_delete_status then
    { a2 with dp := a2.dp + 1, dt := a2.dt + report.file_delete_time_ms }
  else { a2 with df := a2.df + 1 }

/-- `RunAverages.__init__`, embedded faithfully, including the slip in
its read branch: when `self._total_read_pass == 0` the source assigns
`-1` to `self._average_create_time_ms` (not to the read average), so the
read average keeps its initial value `0` and the create average is
overwritten.  Division is Python 2 integer floor division; every operand
is a nonnegative `int`, so it is `Nat` division. -/
def mkRunAverages (run_result_list : List RunResult) (run_id : Nat) : RunAverages :=
  let a := run_result_list.foldl avgStep {}
  let avgCreate1 : Int := if a.cp = 0 then -1 else ((a.ct / a.cp : Nat) : Int)
  let avgCreate2 : Int := if a.rp = 0 then -1 else avgCreate1
  let avgRead : Int := if a.rp = 0 then 0 else ((a.rt / a.rp : Nat) : Int)
  let avgDelete : Int := if a.dp = 0 then -1 else ((a.dt / a.dp : Nat) : Int)
  { total_create_pass := a.cp
    total_create_fail := a.cf
    total_create_time_ms := a.ct
    average_create_time_ms := avgCreate2
    total_read_pass := a.rp
    total_read_fail := a.rf
    total_read_time_ms := a.rt
    average_read_time_ms := avgRead
    total_delete_pass := a.dp
    total_delete_fail := a.df
    average_delete_time_ms := avgDelete
    total_delete_time_ms := a.dt
    run_id := run_id }

/-! ### Fault-capturing worker (`ThreadWithError` in `src/libs/utils.py`
and `src/AwsRunner.py`, identical definitions) -/

/-- Outcome of calling a Python callable: a value, or a raised
exception. -/
inductive PyOutcome (α : Type) where
  | val (a : α)
  | raised
deriving DecidableEq

/-- Whether a call raised. -/
def PyOutcome.isRaised {α : Type} : PyOutcome α → Bool
  | .raised => true
  | .val _ => false

/-- The observable state of a `ThreadWithError`. -/
structure ThreadWithError where
  error : Bool
deriving DecidableEq

/-- `ThreadWithError.__init__` sets `self.error = False`. -/
def ThreadWithError.init : ThreadWithError := { error := false }

/-- `ThreadWithError.run`: reset the flag, call the target inside
`try/except Exception`, and record a raise in `self.error`.  The return
type is the thread state, never a `PyOutcome`: the `except` clause means
the target's exception is not propagated to the caller. -/
def ThreadWithError.run (t : ThreadWithError) (target : Unit → PyOutcome Unit) :
    ThreadWithError :=
  let t1 : ThreadWithError := { t with error := false }
  match target () with
  | .val _ => t1
  | .raised => { t1 with error := true }

/-- `ThreadWithError.has_error`. -/
def ThreadWithError.has_error (t : ThreadWithError) : Bool := t.error

/-! ### Parallel phase executor construction
(`PerformParallelOperations.__init__` in
`src/libs/testFramework/classicTest.py`) -/

/-- A constructed executor: it holds the test units it was given. -/
structure PerformParallelOperations (α : Type) where
  tests : List α
deriving DecidableEq

/-- `PerformParallelOperations.__init__(test_instances=None)`:
`self.tests = test_instances; if not self.tests or len(self.tests) == 0:
raise Exception("No tests specified")`.  `none` models calling with no
unit list at all (the `None` default); for a list, Python truthiness
`not self.tests` is `True` exactly on the empty list, so the raise
happens exactly when the list is empty. -/
def PerformParallelOperations.init {α : Type} (test_instances : Option (List α)) :
    Except String (PerformParallelOperations α) :=
  match test_instances with
  | none => Except.error "No tests specified"
  | some ts =>
    if ts.length = 0 then Except.error "No tests specified"
    else Except.ok { tests := ts }

/-! ### Ramp driver (`main` in `src/AwsRunner.py`, lines 775-841)

The driver is single-threaded.  For each phase it starts one
`ThreadWithError` per participating unit and then joins each with a
timeout, raising on the first worker that is still alive or reported an
error; so whether a phase succeeds, and which `execute_test` workers
append a measurement to the global `test_per_run_results` list, is a
function of the per-unit outcomes.  `Env` supplies those outcomes:
`setupOk j` is unit `j`'s `setup_environment` worker finishing in time
without error, `preOk i j` / `execOk i j` / `cleanOk i j` likewise for
level `i` (levels are 1-based), `execRes i j` is the `RunResult` unit
`j`'s `execute_test` produces at level `i`, and `destroyOk` /
`deleteBucketOk` are the two teardown calls at the bottom of `main`.
An `execute_test` worker appends its result exactly when it succeeds; a
worker that raised never reaches the append, and a hung worker is
abandoned and modelled as never appending. -/

/-- The environment of outcomes a run of `main` is driven by. -/
structure Env where
  setupOk : Nat → Bool
  preOk : Nat → Nat → Bool
  execOk : Nat → Nat → Bool
  execRes : Nat → Nat → RunResult
  cleanOk : Nat → Nat → Bool
  destroyOk : Bool
  deleteBucketOk : Bool

/-- The four phase operations of a test unit. -/
inductive Phase where
  | setup
  | preTest
  | execTest
  | cleanup
deriving DecidableEq

/-- One phase call in the run's trace: which operation, at which ramp
level (0 for the one-time `setup_environment` warm-up), on which unit
(its index in `test_object_list`). -/
structure Ev where
  phase : Phase
  level : Nat
  unit : Nat
deriving DecidableEq

/-- The `setup_environment` warm-up starts one worker per unit, over all
`args.clients` units. -/
def setupEvents (clients : Nat) : List Ev :=
  (List.range clients).map (fun j => { phase := Phase.setup, level := 0, unit := j })

/-- `pre_test_setup` workers at level `i`: one per unit `j < i`
(`for j in range(0, i)`), all started before any is joined. -/
def preEvents (i : Nat) : List Ev :=
  (List.range i).map (fun j => { phase := Phase.preTest, level := i, unit := j })

/-- `execute_test` workers at level `i`, one per unit `j < i`. -/
def execEvents (i : Nat) : List Ev :=
  (List.range i).map (fun j => { phase := Phase.execTest, level := i, unit := j })

/-- `cleanup` at level `i` runs sequentially in the driver thread
(`for j in range(0, i): test_object_list[j].cleanup()`): units are
called in order up to and including the first failing call, whose raise
aborts the loop. -/
def cleanupCalledFrom (env : Env) (i : Nat) : List Nat → List Nat
  | [] => []
  | j :: rest => if env.cleanOk i j then j :: cleanupCalledFrom env i rest else [j]

/-- The units whose `cleanup` is actually called at level `i`. -/
def cleanupCalled (env : Env) (i : Nat) : List Nat :=
  cleanupCalledFrom env i (List.range i)

/-- The `cleanup` calls of level `i` as trace events. -/
def cleanupEvents (env : Env) (i : Nat) : List Ev :=
  (cleanupCalled env i).map (fun j => { phase := Phase.cleanup, level := i, unit := j })

/-- The warm-up join loop succeeds iff every setup worker finished in
time with no error. -/
def setupPhaseOk (env : Env) (clients : Nat) : Bool :=
  (List.range clients).all env.setupOk

/-- The `pre_test_setup` join loop at level `i` succeeds iff every
worker of the level did. -/
def prePhaseOk (env : Env) (i : Nat) : Bool :=
  (List.range i).all (env.preOk i)

/-- The `execute_test` join loop at level `i` succeeds iff every worker
of the level did. -/
def execPhaseOk (env : Env) (i : Nat) : Bool :=
  (List.range i).all (env.execOk i)

/-- The sequential `cleanup` loop at level `i` succeeds iff every call
did. -/
def cleanupPhaseOk (env : Env) (i : Nat) : Bool :=
  (List.range i).all (env.cleanOk i)

/-- A ramp level completes (and its `RunAverages` is appended) iff its
three phases all succeed. -/
def levelOk (env : Env) (i : Nat) : Bool :=
  prePhaseOk env i && execPhaseOk env i && cleanupPhaseOk env i

/-- The measurements appended to the global `test_per_run_results`
during level `i`'s `execute_test` phase: every worker was started, and
each successful one appended its result under the lock (in unit order in
this sequential model; no claim constrains the interleaving). -/
def execAppends (env : Env) (i : Nat) : List RunResult :=
  (List.range i).filterMap (fun j => if env.execOk i j then some (env.execRes i j) else none)

/-- The driver state threaded through the ramp loop: the global
`test_per_run_results` list, the `test_run_averages` report, and the
trace of phase calls made so far. -/
structure DriverState where
  results : List RunResult
  averages : List RunAverages
  trace : List Ev
deriving DecidableEq

/-- The `for i in range(1, args.clients + 1)` loop of `main`, over the
list of remaining levels.  Each level runs `pre_test_setup`, then
`execute_test`, then `cleanup`, appending `RunAverages(
test_per_run_results, i)` on full success; the first phase failure
raises `RuntimeError`, which the enclosing `try` turns into an abort of
the whole loop. -/
def runLevels (env : Env) : List Nat → DriverState → DriverState
  | [], st => st
  | i :: rest, st =>
    let stPre : DriverState := { st with trace := st.trace ++ preEvents i }
    if prePhaseOk env i then
      let stExec : DriverState :=
        { stPre with
          results := stPre.results ++ execAppends env i
          trace := stPre.trace ++ execEvents i }
      if execPhaseOk env i then
        let stClean : DriverState := { stExec with trace := stExec.trace ++ cleanupEvents env i }
        if cleanupPhaseOk env i then
          runLevels env rest
            { stClean with
              averages := stClean.averages ++ [mkRunAverages stClean.results i] }
        else stClean
      else stExec
    else stPre

/-- What a run of `main` (from after provisioning to the end) leaves
behind: the driver state, whether each teardown call was made, and
whether `report_results` ran (with which report). -/
structure MainOutcome where
  state : DriverState
  destroyAttempted : Bool
  deleteBucketAttempted : Bool
  reported : Bool
  report : List RunAverages
deriving DecidableEq

/-- `main` after provisioning: the one-time `setup_environment` warm-up
across all `clients` units inside the `try`, then the ramp loop (only if
the warm-up join succeeded), then — outside any `try` —
`cloud_provider.destroy_all_instances()`, `storage.delete_bucket(...)`
and `report_results(test_run_averages, ...)` in that order, so a raise
from either teardown call propagates and skips everything after it. -/
def mainModel (env : Env) (clients : Nat) : MainOutcome :=
  let st0 : DriverState := { results := [], averages := [], trace := setupEvents clients }
  let st :=
    if setupPhaseOk env clients then runLevels env (List.range' 1 clients) st0 else st0
  if env.destroyOk then
    if env.deleteBucketOk then
      { state := st, destroyAttempted := true, deleteBucketAttempted := true
        reported := true, report := st.averages }
    else
      { state := st, destroyAttempted := true, deleteBucketAttempted := true
        reported := false, report := [] }
  else
    { state := st, destroyAttempted := true, deleteBucketAttempted := false
      reported := false, report := [] }

/-- The trace of phase calls a run makes. -/
def mainTrace (env : Env) (clients : Nat) : List Ev :=
  (mainModel env clients).state.trace

/-! ### Derived observables of a run -/

/-- The events of ramp level `L` in a trace. -/
def levelEvents (tr : List Ev) (L : Nat) : List Ev :=
  tr.filter (fun e => e.level == L)

/-- Whether level `L` was attempted: some phase call carries it. -/
def levelAttemptedB (tr : List Ev) (L : Nat) : Bool :=
  !(levelEvents tr L).isEmpty

/-- The units whose `pre_test_setup` is called at level `L`, in call
order: the participants of the level. -/
def preUnitsAt (tr : List Ev) (L : Nat) : List Nat :=
  (tr.filter (fun e => e.phase == Phase.preTest && e.level == L)).map Ev.unit

/-- The trace a single level contributes. -/
def levelTrace (env : Env) (i : Nat) : List Ev :=
  preEvents i ++
    (if prePhaseOk env i then
      execEvents i ++ (if execPhaseOk env i then cleanupEvents env i else [])
    else [])

/-- The trace the ramp loop contributes over a list of levels. -/
def traceOfLevels (env : Env) : List Nat → List Ev
  | [] => []
  | i :: rest =>
    levelTrace env i ++ (if levelOk env i then traceOfLevels env rest else [])

/-- The measurements the ramp loop appends over a list of levels. -/
def resultsOfLevels (env : Env) : List Nat → List RunResult
  | [] => []
  | i :: rest =>
    (if prePhaseOk env i then execAppends env i else []) ++
      (if levelOk env i then resultsOfLevels env rest else [])

/-- The `RunAverages` entries the ramp loop appends over a list of
levels, given the measurements already accumulated. -/
def averagesOfLevels (env : Env) : List RunResult → List Nat → List RunAverages
  | _, [] => []
  | acc, i :: rest =>
    if prePhaseOk env i then
      if execPhaseOk env i then
        if cleanupPhaseOk env i then
          mkRunAverages (acc ++ execAppends env i) i ::
            averagesOfLevels env (acc ++ execAppends env i) rest
        else []
      else []
    else []

/-- The contents of `test_per_run_results` after all of levels `1..L`
completed: the global list is never cleared, so it holds every level's
measurements. -/
def accumThrough (env : Env) (L : Nat) : List RunResult :=
  ((List.range' 1 L).map (execAppends env)).flatten

/-- The `RunAverages` fields as a function of the final loop counters:
`mkRunAverages rs k = mkFromAcc (rs.foldl avgStep {}) k` definitionally.
Used to reason about the averages without re-running the fold. -/
def mkFromAcc (a : AvgAcc) (run_id : Nat) : RunAverages :=
  { total_create_pass := a.cp
    total_create_fail := a.cf
    total_create_time_ms := a.ct
    average_create_time_ms :=
      if a.rp = 0 then -1 else if a.cp = 0 then -1 else ((a.ct / a.cp : Nat) : Int)
    total_read_pass := a.rp
    total_read_fail := a.rf
    total_read_time_ms := a.rt
    average_read_time_ms := if a.rp = 0 then 0 else ((a.rt / a.rp : Nat) : Int)
    total_delete_pass := a.dp
    total_delete_fail := a.df
    average_delete_time_ms := if a.dp = 0 then -1 else ((a.dt / a.dp : Nat) : Int)
    total_delete_time_ms := a.dt
    run_id := run_id }

/-! ### Concrete environments used by counterexamples and witnesses -/

/-- A measurement whose create passed in 100 ms, read failed, and delete
passed in 200 ms. -/
def rC2 : RunResult :=
  { resultId := 0
    file_create_time_ms := 100, file_create_status := true
    file_delete_time_ms := 200, file_delete_status := true }

/-- A measurement with every operation failed (an all-miss parse). -/
def rFailX : RunResult := { resultId := 0 }

/-- A measurement with every operation passing in 100 ms. -/
def rPassX : RunResult :=
  { resultId := 1
    file_create_time_ms := 100, file_create_status := true
    file_read_time_ms := 100, file_read_status := true
    file_delete_time_ms := 100, file_delete_status := true }

/-- A measurement with every operation passing in 300 ms. -/
def rPassY : RunResult :=
  { resultId := 2
    file_create_time_ms := 300, file_create_status := true
    file_read_time_ms := 300, file_read_status := true
    file_delete_time_ms := 300, file_delete_status := true }

/-- Every phase call succeeds; level 1 measures `rFailX`, later levels
measure `rPassX` (unit 0) and `rPassY` (other units). -/
def envOkX : Env :=
  { setupOk := fun _ => true
    preOk := fun _ _ => true
    execOk := fun _ _ => true
    execRes := fun i j => if i = 1 then rFailX else if j = 0 then rPassX else rPassY
    cleanOk := fun _ _ => true
    destroyOk := true
    deleteBucketOk := true }

/-- Like `envOkX`, except unit 1's `execute_test` worker fails at
level 2. -/
def envExecFailX : Env :=
  { envOkX with execOk := fun i j => !(i == 2 && j == 1) }

/-- Like `envOkX`, except every `pre_test_setup` fails and instance
teardown fails. -/
def envPreFailX : Env :=
  { envOkX with preOk := fun _ _ => false, destroyOk := false }

/-- Like `envOkX`, except instance teardown fails. -/
def envDestroyFailX : Env :=
  { envOkX with destroyOk := false }

/-! ## Helper lemmas -/

theorem mem_range'_iff {s n a : Nat} : a ∈ List.range' s n ↔ s ≤ a ∧ a < s + n := by
  rw [List.mem_range']
  constructor
  · rintro ⟨i, hi, rfl⟩
    omega
  · intro h
    exact ⟨a - s, by omega, by omega⟩

theorem mem_levelTrace_level {env : Env} {i : Nat} {e : Ev} (h : e ∈ levelTrace env i) :
    e.level = i := by
  unfold levelTrace at h
  rcases List.mem_append.mp h with h1 | h1
  · simp only [preEvents, List.mem_map, List.mem_range] at h1
    obtain ⟨j, _, rfl⟩ := h1
    rfl
  · by_cases hp : prePhaseOk env i = true
    · rw [if_pos hp] at h1
      rcases List.mem_append.mp h1 with h2 | h2
      · simp only [execEvents, List.mem_map, List.mem_range] at h2
        obtain ⟨j, _, rfl⟩ := h2
        rfl
      · by_cases he : execPhaseOk env i = true
        · rw [if_pos he] at h2
          simp only [cleanupEvents, List.mem_map] at h2
          obtain ⟨j, _, rfl⟩ := h2
          rfl
        · rw [if_neg he] at h2
          simp at h2
    · rw [if_neg hp] at h1
      simp at h1

theorem mem_traceOfLevels_level {env : Env} {e : Ev} :
    ∀ {ls : List Nat}, e ∈ traceOfLevels env ls → e.level ∈ ls := by
  intro ls
  induction ls with
  | nil =>
    intro h
    simp [traceOfLevels] at h
  | cons i rest ih =>
    intro h
    unfold traceOfLevels at h
    rcases List.mem_append.mp h with h1 | h1
    · exact List.mem_cons.mpr (Or.inl (mem_levelTrace_level h1))
    · by_cases hOk : levelOk env i = true
      · rw [if_pos hOk] at h1
        exact List.mem_cons.mpr (Or.inr (ih h1))
      · rw [if_neg hOk] at h1
        simp at h1

theorem mem_setupEvents {clients : Nat} {e : Ev} (h : e ∈ setupEvents clients) :
    e.phase = Phase.setup ∧ e.level = 0 := by
  simp only [setupEvents, List.mem_map, List.mem_range] at h
  obtain ⟨j, _, rfl⟩ := h
  exact ⟨rfl, rfl⟩

theorem runLevels_trace (env : Env) (ls : List Nat) :
    ∀ st : DriverState, (runLevels env ls st).trace = st.trace ++ traceOfLevels env ls := by
  induction ls with
  | nil =>
    intro st
    simp [runLevels, traceOfLevels]
  | cons i rest ih =>
    intro st
    by_cases hp : prePhaseOk env i = true
    · by_cases he : execPhaseOk env i = true
      · by_cases hc : cleanupPhaseOk env i = true
        · simp [runLevels, hp, he, hc, ih, traceOfLevels, levelTrace, levelOk,
            List.append_assoc]
        · simp [runLevels, hp, he, hc, traceOfLevels, levelTrace, levelOk,
            List.append_assoc]
      · simp [runLevels, hp, he, traceOfLevels, levelTrace, levelOk, List.append_assoc]
    · simp [runLevels, hp, traceOfLevels, levelTrace, levelOk, List.append_assoc]

theorem runLevels_results (env : Env) (ls : List Nat) :
    ∀ st : DriverState, (runLevels env ls st).results = st.results ++ resultsOfLevels env ls := by
  induction ls with
  | nil =>
    intro st
    simp [runLevels, resultsOfLevels]
  | cons i rest ih =>
    intro st
    by_cases hp : prePhaseOk env i = true
    · by_cases he : execPhaseOk env i = true
      · by_cases hc : cleanupPhaseOk env i = true
        · simp [runLevels, hp, he, hc, ih, resultsOfLevels, levelOk, List.append_assoc]
        · simp [runLevels, hp, he, hc, resultsOfLevels, levelOk, List.append_assoc]
      · simp [runLevels, hp, he, resultsOfLevels, levelOk, List.append_assoc]
    · simp [runLevels, hp, resultsOfLevels, levelOk, List.append_assoc]

theorem runLevels_averages (env : Env) (ls : List Nat) :
    ∀ st : DriverState,
      (runLevels env ls st).averages = st.averages ++ averagesOfLevels env st.results ls := by
  induction ls with
  | nil =>
    intro st
    simp [runLevels, averagesOfLevels]
  | cons i rest ih =>
    intro st
    by_cases hp : prePhaseOk env i = true
    · by_cases he : execPhaseOk env i = true
      · by_cases hc : cleanupPhaseOk env i = true
        · simp [runLevels, hp, he, hc, ih, averagesOfLevels, List.append_assoc]
        · simp [runLevels, hp, he, hc, averagesOfLevels]
      · simp [runLevels, hp, he, averagesOfLevels]
    · simp [runLevels, hp, averagesOfLevels]

theorem levelOk_parts {env : Env} {i : Nat} (h : levelOk env i = true) :
    prePhaseOk env i = true ∧ execPhaseOk env i = true ∧ cleanupPhaseOk env i = true := by
  unfold levelOk at h
  simp only [Bool.and_eq_true] at h
  exact ⟨h.1.1, h.1.2, h.2⟩

theorem mkRunAverages_run_id (rs : List RunResult) (i : Nat) :
    (mkRunAverages rs i).run_id = i := rfl

theorem traceOfLevels_append (env : Env) (ls₁ ls₂ : List Nat) :
    traceOfLevels env (ls₁ ++ ls₂) =
      traceOfLevels env ls₁ ++
        (if ls₁.all (levelOk env) then traceOfLevels env ls₂ else []) := by
  induction ls₁ with
  | nil => simp [traceOfLevels]
  | cons i rest ih =>
    by_cases hOk : levelOk env i = true
    · simp [traceOfLevels, hOk, ih, List.append_assoc, List.all_cons]
    · simp [traceOfLevels, hOk, List.all_cons]

theorem resultsOfLevels_append (env : Env) (ls₁ ls₂ : List Nat) :
    resultsOfLevels env (ls₁ ++ ls₂) =
      resultsOfLevels env ls₁ ++
        (if ls₁.all (levelOk env) then resultsOfLevels env ls₂ else []) := by
  induction ls₁ with
  | nil => simp [resultsOfLevels]
  | cons i rest ih =>
    by_cases hOk : levelOk env i = true
    · simp [resultsOfLevels, hOk, ih, List.append_assoc, List.all_cons,
        (levelOk_parts hOk).1]
    · by_cases hp : prePhaseOk env i = true
      · simp [resultsOfLevels, hOk, hp, List.all_cons]
      · simp [resultsOfLevels, hOk, hp, List.all_cons]

theorem averagesOfLevels_append (env : Env) (ls₁ ls₂ : List Nat) :
    ∀ acc : List RunResult,
      averagesOfLevels env acc (ls₁ ++ ls₂) =
        averagesOfLevels env acc ls₁ ++
          (if ls₁.all (levelOk env) then
            averagesOfLevels env (acc ++ resultsOfLevels env ls₁) ls₂
          else []) := by
  induction ls₁ with
  | nil =>
    intro acc
    simp [averagesOfLevels, resultsOfLevels]
  | cons i rest ih =>
    intro acc
    by_cases hp : prePhaseOk env i = true
    · by_cases he : execPhaseOk env i = true
      · by_cases hc : cleanupPhaseOk env i = true
        · simp [averagesOfLevels, hp, he, hc, ih, levelOk, resultsOfLevels,
            List.append_assoc, List.all_cons]
        · simp [averagesOfLevels, hp, he, hc, levelOk, List.all_cons]
      · simp [averagesOfLevels, hp, he, levelOk, List.all_cons]
    · simp [averagesOfLevels, hp, levelOk, List.all_cons]

theorem resultsOfLevels_allOk (env : Env) :
    ∀ ls : List Nat, ls.all (levelOk env) = true →
      resultsOfLevels env ls = (ls.map (execAppends env)).flatten := by
  intro ls
  induction ls with
  | nil =>
    intro _
    simp [resultsOfLevels]
  | cons i rest ih =>
    intro h
    rw [List.all_cons, Bool.and_eq_true] at h
    obtain ⟨h1, h2⟩ := h
    simp [resultsOfLevels, h1, (levelOk_parts h1).1, ih h2]

theorem averagesOfLevels_run_id (env : Env) :
    ∀ (ls : List Nat) (acc : List RunResult), ls.all (levelOk env) = true →
      (averagesOfLevels env acc ls).map RunAverages.run_id = ls := by
  intro ls
  induction ls with
  | nil =>
    intro acc _
    simp [averagesOfLevels]
  | cons i rest ih =>
    intro acc h
    rw [List.all_cons, Bool.and_eq_true] at h
    obtain ⟨h1, h2⟩ := h
    obtain ⟨hp, he, hc⟩ := levelOk_parts h1
    simp [averagesOfLevels, hp, he, hc, ih _ h2, mkRunAverages_run_id]

theorem averagesOfLevels_length (env : Env) (ls : List Nat) (acc : List RunResult)
    (h : ls.all (levelOk env) = true) :
    (averagesOfLevels env acc ls).length = ls.length := by
  have h2 := congrArg List.length (averagesOfLevels_run_id env ls acc h)
  simpa using h2

theorem accumThrough_succ (env : Env) (m : Nat) :
    accumThrough env (m + 1) = accumThrough env m ++ execAppends env (1 + m) := by
  unfold accumThrough
  rw [show List.range' 1 (m + 1) = List.range' 1 m ++ [1 + m] from by
    simpa using @List.range'_concat 1 1 m]
  simp

theorem averagesOfLevels_range' (env : Env) :
    ∀ n : Nat, (List.range' 1 n).all (levelOk env) = true →
      averagesOfLevels env [] (List.range' 1 n) =
        (List.range' 1 n).map (fun i => mkRunAverages (accumThrough env i) i) := by
  intro n
  induction n with
  | zero =>
    intro _
    simp [averagesOfLevels]
  | succ m ih =>
    intro h
    have hconcat : List.range' 1 (m + 1) = List.range' 1 m ++ [1 + m] := by
      simpa using @List.range'_concat 1 1 m
    rw [hconcat] at h ⊢
    rw [List.all_append, Bool.and_eq_true] at h
    obtain ⟨h1, h2⟩ := h
    have hlast : levelOk env (1 + m) = true := by
      simpa [List.all_cons] using h2
    obtain ⟨hp, he, hc⟩ := levelOk_parts hlast
    rw [averagesOfLevels_append, if_pos h1, ih h1, List.map_append]
    congr 1
    rw [resultsOfLevels_allOk env _ h1, List.nil_append]
    have hacc : accumThrough env (1 + m) =
        ((List.range' 1 m).map (execAppends env)).flatten ++ execAppends env (1 + m) := by
      rw [show 1 + m = m + 1 from Nat.add_comm 1 m, accumThrough_succ]
      rw [show m + 1 = 1 + m from Nat.add_comm m 1]
      rfl
    simp [averagesOfLevels, hp, he, hc, hacc]

theorem mainModel_state (env : Env) (clients : Nat) :
    (mainModel env clients).state =
      (if setupPhaseOk env clients then
        runLevels env (List.range' 1 clients)
          { results := [], averages := [], trace := setupEvents clients }
      else { results := [], averages := [], trace := setupEvents clients }) := by
  cases hd : env.destroyOk <;> cases hb : env.deleteBucketOk <;>
    simp [mainModel, hd, hb]

theorem mainTrace_ok (env : Env) (clients : Nat) (hs : setupPhaseOk env clients = true) :
    mainTrace env clients =
      setupEvents clients ++ traceOfLevels env (List.range' 1 clients) := by
  rw [mainTrace, mainModel_state, if_pos hs, runLevels_trace]

theorem mainTrace_bad_setup (env : Env) (clients : Nat)
    (hs : ¬setupPhaseOk env clients = true) :
    mainTrace env clients = setupEvents clients := by
  rw [mainTrace, mainModel_state, if_neg hs]

theorem mainModel_averages (env : Env) (clients : Nat)
    (hs : setupPhaseOk env clients = true) :
    (mainModel env clients).state.averages =
      averagesOfLevels env [] (List.range' 1 clients) := by
  rw [mainModel_state, if_pos hs, runLevels_averages]
  rfl

theorem mainModel_results (env : Env) (clients : Nat)
    (hs : setupPhaseOk env clients = true) :
    (mainModel env clients).state.results =
      resultsOfLevels env (List.range' 1 clients) := by
  rw [mainModel_state, if_pos hs, runLevels_results]
  rfl

theorem mainModel_teardown_eq (env : Env) (clients : Nat) :
    (mainModel env clients).destroyAttempted = true ∧
    (mainModel env clients).deleteBucketAttempted = env.destroyOk ∧
    (mainModel env clients).reported = (env.destroyOk && env.deleteBucketOk) ∧
    ((mainModel env clients).reported = true →
      (mainModel env clients).report = (mainModel env clients).state.averages) := by
  cases hd : env.destroyOk <;> cases hb : env.deleteBucketOk <;>
    simp [mainModel, hd, hb]

theorem range'_split_at (clients L : Nat) (h1 : 1 ≤ L) (h2 : L ≤ clients) :
    List.range' 1 clients = List.range' 1 (L - 1) ++ List.range' L (clients - L + 1) := by
  have h := List.range'_append 1 (L - 1) (clients - L + 1) 1
  rw [show 1 + 1 * (L - 1) = L from by omega] at h
  rw [show clients - L + 1 + (L - 1) = clients from by omega] at h
  exact h.symm

theorem levelEvents_append (tr₁ tr₂ : List Ev) (L : Nat) :
    levelEvents (tr₁ ++ tr₂) L = levelEvents tr₁ L ++ levelEvents tr₂ L :=
  List.filter_append tr₁ tr₂

theorem levelEvents_levelTrace_self (env : Env) (L : Nat) :
    levelEvents (levelTrace env L) L = levelTrace env L := by
  rw [levelEvents, List.filter_eq_self]
  intro e he
  simp [mem_levelTrace_level he]

theorem levelEvents_levelTrace_ne (env : Env) {i L : Nat} (h : i ≠ L) :
    levelEvents (levelTrace env i) L = [] := by
  rw [levelEvents, List.filter_eq_nil_iff]
  intro e he
  simp [mem_levelTrace_level he, h]

theorem levelEvents_traceOfLevels_ne (env : Env) {L : Nat} :
    ∀ {ls : List Nat}, (∀ i ∈ ls, i ≠ L) → levelEvents (traceOfLevels env ls) L = [] := by
  intro ls
  induction ls with
  | nil =>
    intro _
    simp [traceOfLevels, levelEvents]
  | cons i rest ih =>
    intro h
    unfold traceOfLevels
    rw [levelEvents_append, levelEvents_levelTrace_ne env (h i (List.mem_cons_self i rest))]
    by_cases hOk : levelOk env i = true
    · rw [if_pos hOk, ih (fun j hj => h j (List.mem_cons_of_mem i hj))]
      rfl
    · rw [if_neg hOk]
      simp [levelEvents]

theorem levelEvents_setupEvents (clients L : Nat) (h : 1 ≤ L) :
    levelEvents (setupEvents clients) L = [] := by
  rw [levelEvents, List.filter_eq_nil_iff]
  intro e he
  have h0 := (mem_setupEvents he).2
  simp [h0]
  omega

theorem levelEvents_mainTrace (env : Env) (clients L : Nat) (hL : 1 ≤ L)
    (hLc : L ≤ clients) (hs : setupPhaseOk env clients = true)
    (hall : (List.range' 1 (L - 1)).all (levelOk env) = true) :
    levelEvents (mainTrace env clients) L = levelTrace env L := by
  rw [mainTrace_ok env clients hs, levelEvents_append,
    levelEvents_setupEvents clients L hL, List.nil_append,
    range'_split_at clients L hL hLc, traceOfLevels_append, if_pos hall,
    levelEvents_append,
    levelEvents_traceOfLevels_ne env (fun i hi => by rw [mem_range'_iff] at hi; omega),
    List.nil_append,
    List.range'_succ, traceOfLevels, levelEvents_append, levelEvents_levelTrace_self]
  by_cases hOk : levelOk env L = true
  · rw [if_pos hOk,
      levelEvents_traceOfLevels_ne env (fun i hi => by rw [mem_range'_iff] at hi; omega)]
    simp
  · rw [if_neg hOk]
    simp [levelEvents]

theorem levelTrace_ne_nil (env : Env) (L : Nat) (hL : 1 ≤ L) :
    levelTrace env L ≠ [] := by
  unfold levelTrace
  intro hcontra
  rcases List.append_eq_nil.mp hcontra with ⟨hpre, _⟩
  rw [preEvents, List.map_eq_nil_iff, List.range_eq_nil] at hpre
  omega

theorem levelAttemptedB_iff (env : Env) (clients L : Nat) (hL : 1 ≤ L) :
    levelAttemptedB (mainTrace env clients) L = true ↔
      (L ≤ clients ∧ setupPhaseOk env clients = true ∧
        (List.range' 1 (L - 1)).all (levelOk env) = true) := by
  constructor
  · intro h
    by_cases hs : setupPhaseOk env clients = true
    case neg =>
      exfalso
      rw [levelAttemptedB, mainTrace_bad_setup env clients hs,
        levelEvents_setupEvents clients L hL] at h
      simp at h
    by_cases hLc : L ≤ clients
    case neg =>
      exfalso
      rw [levelAttemptedB, mainTrace_ok env clients hs, levelEvents_append,
        levelEvents_setupEvents clients L hL, List.nil_append,
        levelEvents_traceOfLevels_ne env
          (fun i hi => by rw [mem_range'_iff] at hi; omega)] at h
      simp at h
    by_cases hall : (List.range' 1 (L - 1)).all (levelOk env) = true
    · exact ⟨hLc, hs, hall⟩
    · exfalso
      rw [levelAttemptedB, mainTrace_ok env clients hs, levelEvents_append,
        levelEvents_setupEvents clients L hL, List.nil_append,
        range'_split_at clients L hL hLc, traceOfLevels_append, if_neg hall,
        levelEvents_append,
        levelEvents_traceOfLevels_ne env
          (fun i hi => by rw [mem_range'_iff] at hi; omega)] at h
      simp [levelEvents] at h
  · rintro ⟨hLc, hs, hall⟩
    rw [levelAttemptedB, levelEvents_mainTrace env clients L hL hLc hs hall]
    simpa [Bool.not_eq_true', List.isEmpty_eq_false] using levelTrace_ne_nil env L hL

theorem parse_output_create_none (rid : Nat) (c r d : List Char)
    (h : searchTime c = none) :
    (parse_output rid c r d).file_create_status = false ∧
    (parse_output rid c r d).file_create_time_ms = 0 := by
  unfold parse_output
  rw [h]
  rcases searchTime r with _ | ⟨m2, s2, ms2⟩ <;>
    rcases searchTime d with _ | ⟨m3, s3, ms3⟩ <;> exact ⟨rfl, rfl⟩

theorem parse_output_read_none (rid : Nat) (c r d : List Char)
    (h : searchTime r = none) :
    (parse_output rid c r d).file_read_status = false ∧
    (parse_output rid c r d).file_read_time_ms = 0 := by
  unfold parse_output
  rw [h]
  rcases searchTime c with _ | ⟨m1, s1, ms1⟩ <;>
    rcases searchTime d with _ | ⟨m3, s3, ms3⟩ <;> exact ⟨rfl, rfl⟩

theorem parse_output_delete_none (rid : Nat) (c r d : List Char)
    (h : searchTime d = none) :
    (parse_output rid c r d).file_delete_status = false ∧
    (parse_output rid c r d).file_delete_time_ms = 0 := by
  unfold parse_output
  rw [h]
  rcases searchTime c with _ | ⟨m1, s1, ms1⟩ <;>
    rcases searchTime r with _ | ⟨m2, s2, ms2⟩ <;> exact ⟨rfl, rfl⟩

theorem avgStep_fields (a : AvgAcc) (r : RunResult) :
    avgStep a r =
      { cp := a.cp + (if r.file_create_status then 1 else 0)
        cf := a.cf + (if r.file_create_status then 0 else 1)
        ct := a.ct + (if r.file_create_status then r.file_create_time_ms else 0)
        rp := a.rp + (if r.file_read_status then 1 else 0)
        rf := a.rf + (if r.file_read_status then 0 else 1)
        rt := a.rt + (if r.file_read_status then r.file_read_time_ms else 0)
        dp := a.dp + (if r.file_delete_status then 1 else 0)
        df := a.df + (if r.file_delete_status then 0 else 1)
        dt := a.dt + (if r.file_delete_status then r.file_delete_time_ms else 0) } := by
  unfold avgStep
  by_cases h1 : r.file_create_status = true <;> by_cases h2 : r.file_read_status = true <;>
    by_cases h3 : r.file_delete_status = true <;> simp [h1, h2, h3]

theorem foldl_avgStep_offset (rs : List RunResult) :
    ∀ a : AvgAcc,
      rs.foldl avgStep a =
        { cp := a.cp + (rs.foldl avgStep {}).cp
          cf := a.cf + (rs.foldl avgStep {}).cf
          ct := a.ct + (rs.foldl avgStep {}).ct
          rp := a.rp + (rs.foldl avgStep {}).rp
          rf := a.rf + (rs.foldl avgStep {}).rf
          rt := a.rt + (rs.foldl avgStep {}).rt
          dp := a.dp + (rs.foldl avgStep {}).dp
          df := a.df + (rs.foldl avgStep {}).df
          dt := a.dt + (rs.foldl avgStep {}).dt } := by
  induction rs with
  | nil =>
    intro a
    simp [List.foldl]
  | cons r rest ih =>
    intro a
    simp only [List.foldl]
    rw [ih (avgStep a r), ih (avgStep {} r)]
    rw [avgStep_fields a r, avgStep_fields {} r]
    simp only [AvgAcc.mk.injEq]
    omega

theorem mkRunAverages_eq_mkFromAcc (rs : List RunResult) (k : Nat) :
    mkRunAverages rs k = mkFromAcc (rs.foldl avgStep {}) k := rfl

theorem mkRunAverages_cons_allfail (x : RunResult) (rs : List RunResult)
    (h1 : x.file_create_status = false) (h2 : x.file_read_status = false)
    (h3 : x.file_delete_status = false) :
    (x :: rs).foldl avgStep {} =
      { cp := (rs.foldl avgStep {}).cp
        cf := (rs.foldl avgStep {}).cf + 1
        ct := (rs.foldl avgStep {}).ct
        rp := (rs.foldl avgStep {}).rp
        rf := (rs.foldl avgStep {}).rf + 1
        rt := (rs.foldl avgStep {}).rt
        dp := (rs.foldl avgStep {}).dp
        df := (rs.foldl avgStep {}).df + 1
        dt := (rs.foldl avgStep {}).dt } := by
  have hstep : avgStep {} x = { cf := 1, rf := 1, df := 1 } := by
    rw [avgStep_fields]
    simp [h1, h2, h3]
  show rs.foldl avgStep (avgStep {} x) = _
  rw [foldl_avgStep_offset rs (avgStep {} x), hstep]
  simp only [AvgAcc.mk.injEq]
  omega

/-- Claim C2 (code bug, evaluation): on a single measurement whose
create passed (100 ms), read failed, and delete passed (200 ms), the
source's `RunAverages.__init__` leaves the read average at `0` — not at
the sentinel `-1` the claim requires — and clobbers the create average
to `-1` instead of the passing average `100`, because the zero-read-pass
branch assigns the sentinel to `self._average_create_time_ms`.  The
delete branch behaves as claimed. -/
theorem C2_read_sentinel_bug :
    (mkRunAverages [rC2] 1).total_read_pass = 0 ∧
    (mkRunAverages [rC2] 1).average_read_time_ms = 0 ∧
    (mkRunAverages [rC2] 1).average_read_time_ms ≠ -1 ∧
    (mkRunAverages [rC2] 1).total_create_pass = 1 ∧
    (mkRunAverages [rC2] 1).average_create_time_ms = -1 ∧
    (mkRunAverages [rC2] 1).average_create_time_ms ≠ 100 ∧
    (mkRunAverages [rC2] 1).average_delete_time_ms = 200 := by
  decide

/-- Claim C3 (corrected, amended): `parse_output` is exact on the
leftmost match of the pattern: on texts whose (only) time report is
`real 1m2.345s` the parsed duration is exactly
62345 = 1*60000 + 2*1000 + 345 ms, the fractional digits taken directly
as a millisecond count; a text with no match of the pattern yields
status false and duration 0; and a measurement that parsed nothing
contributes only to the fail counters of `RunAverages`, leaving every
pass count and every average unchanged. -/
theorem C3_parser_exactness (rid : Nat) :
    (parse_output rid "real 1m2.345s".data "real 1m2.345s".data "real 1m2.345s".data =
      { resultId := rid
        file_create_time_ms := 62345, file_create_status := true
        file_read_time_ms := 62345, file_read_status := true
        file_delete_time_ms := 62345, file_delete_status := true }) ∧
    (∀ c r d : List Char, searchTime c = none →
      (parse_output rid c r d).file_create_status = false ∧
      (parse_output rid c r d).file_create_time_ms = 0) ∧
    (∀ c r d : List Char, searchTime r = none →
      (parse_output rid c r d).file_read_status = false ∧
      (parse_output rid c r d).file_read_time_ms = 0) ∧
    (∀ c r d : List Char, searchTime d = none →
      (parse_output rid c r d).file_delete_status = false ∧
      (parse_output rid c r d).file_delete_time_ms = 0) ∧
    (∀ (x : RunResult) (rs : List RunResult) (k : Nat),
      x.file_create_status = false → x.file_read_status = false →
      x.file_delete_status = false →
      (mkRunAverages (x :: rs) k).total_create_fail
          = (mkRunAverages rs k).total_create_fail + 1 ∧
      (mkRunAverages (x :: rs) k).total_read_fail
          = (mkRunAverages rs k).total_read_fail + 1 ∧
      (mkRunAverages (x :: rs) k).total_delete_fail
          = (mkRunAverages rs k).total_delete_fail + 1 ∧
      (mkRunAverages (x :: rs) k).total_create_pass
          = (mkRunAverages rs k).total_create_pass ∧
      (mkRunAverages (x :: rs) k).total_read_pass
          = (mkRunAverages rs k).total_read_pass ∧
      (mkRunAverages (x :: rs) k).total_delete_pass
          = (mkRunAverages rs k).total_delete_pass ∧
      (mkRunAverages (x :: rs) k).average_create_time_ms
          = (mkRunAverages rs k).average_create_time_ms ∧
      (mkRunAverages (x :: rs) k).average_read_time_ms
          = (mkRunAverages rs k).average_read_time_ms ∧
      (mkRunAverages (x :: rs) k).average_delete_time_ms
          = (mkRunAverages rs k).average_delete_time_ms) := by
  refine ⟨rfl, parse_output_create_none rid, parse_output_read_none rid,
    parse_output_delete_none rid, ?_⟩
  intro x rs k h1 h2 h3
  rw [mkRunAverages_eq_mkFromAcc, mkRunAverages_eq_mkFromAcc,
    mkRunAverages_cons_allfail x rs h1 h2 h3]
  simp [mkFromAcc]

/-- Claim C3 witness: the no-match clause of `C3_parser_exactness`
applied at a concrete text with no time report. -/
theorem C3_parser_exactness_witness :
    (parse_output 0 "time not reported".data "a".data "b".data).file_create_status = false ∧
    (parse_output 0 "time not reported".data "a".data "b".data).file_create_time_ms = 0 :=
  (C3_parser_exactness 0).2.1 "time not reported".data "a".data "b".data rfl

/-- Claim C3 counterexample: the claim as stated quantifies over every
text *containing* `real 1m2.345s`, but `re.search` takes the leftmost
match: a text whose first time report is `real 0m0.1s` parses to 1 ms
even though `real 1m2.345s` occurs later in it. -/
theorem C3_counterexample :
    containsSeq "real 1m2.345s".data "real 0m0.1s real 1m2.345s".data = true ∧
    (parse_output 0 "real 0m0.1s real 1m2.345s".data [] []).file_create_status = true ∧
    (parse_output 0 "real 0m0.1s real 1m2.345s".data [] []).file_create_time_ms = 1 ∧
    (parse_output 0 "real 0m0.1s real 1m2.345s".data [] []).file_create_time_ms ≠ 62345 := by
  decide

/-- Claim C7 (confirmed): a `ThreadWithError` running a zero-argument
callable reports `has_error = false` when the callable returns normally
and `has_error = true` when it raises; `run` returns the worker state in
both cases (its `except Exception` swallows the raise, so the exception
is not propagated to the caller — visible in the return type). -/
theorem C7_fault_capturing_worker (t : ThreadWithError) (target : Unit → PyOutcome Unit) :
    (t.run target).has_error = (target ()).isRaised := by
  unfold ThreadWithError.run ThreadWithError.has_error PyOutcome.isRaised
  cases target () <;> rfl

/-- Claim C10 (confirmed): constructing the parallel executor with no
unit list (the `None` default) or an empty one raises
`Exception("No tests specified")`; a successful construction holds
exactly the given units and they are never the empty list, so no phase
execution can run over zero units. -/
theorem C10_no_tests_guard {α : Type} :
    (PerformParallelOperations.init none = (Except.error "No tests specified" : Except String (PerformParallelOperations α))) ∧
    (∀ ts : List α,
      PerformParallelOperations.init (some ts) = Except.error "No tests specified" ↔
        ts = []) ∧
    (∀ (ts : List α) (p : PerformParallelOperations α),
      PerformParallelOperations.init (some ts) = Except.ok p →
        p.tests = ts ∧ p.tests ≠ []) := by
  refine ⟨rfl, ?_, ?_⟩
  · intro ts
    constructor
    · intro h
      by_cases hlen : ts.length = 0
      · exact List.length_eq_zero.mp hlen
      · rw [PerformParallelOperations.init] at h
        simp [hlen] at h
    · intro h
      subst h
      rfl
  · intro ts p h
    rw [PerformParallelOperations.init] at h
    by_cases hlen : ts.length = 0
    · simp [hlen] at h
    · rw [if_neg hlen] at h
      have hp : ({ tests := ts } : PerformParallelOperations α) = p :=
        Except.ok.inj h
      rw [← hp]
      exact ⟨rfl, fun hc => hlen (by simpa using congrArg List.length hc)⟩

/-- Claim C10 witness: `C10_no_tests_guard` applied to the concrete
one-element unit list `[7]`, whose construction succeeds. -/
theorem C10_no_tests_guard_witness :
    ({ tests := [7] } : PerformParallelOperations Nat).tests = [7] ∧
    ({ tests := [7] } : PerformParallelOperations Nat).tests ≠ [] :=
  C10_no_tests_guard.2.2 [7] { tests := [7] } rfl

/-- Claim C9 (corrected, amended): after the ramp loop — aborted or not
— `main` always attempts instance teardown, but the two teardown calls
and the report sit outside any `try`: storage teardown is attempted only
when instance teardown returns, and the report is produced only when
both return.  A teardown failure propagates; it is not logged and
swallowed. -/
theorem C9_teardown_propagates (env : Env) (clients : Nat) :
    (mainModel env clients).destroyAttempted = true ∧
    (mainModel env clients).deleteBucketAttempted = env.destroyOk ∧
    (mainModel env clients).reported = (env.destroyOk && env.deleteBucketOk) ∧
    ((mainModel env clients).reported = true →
      (mainModel env clients).report = (mainModel env clients).state.averages) :=
  mainModel_teardown_eq env clients

/-- Claim C9 witness: `C9_teardown_propagates` at a run whose teardowns
succeed, discharging the reported-implies-report hypothesis. -/
theorem C9_teardown_propagates_witness :
    (mainModel envOkX 1).report = (mainModel envOkX 1).state.averages :=
  (C9_teardown_propagates envOkX 1).2.2.2 rfl

/-- Claim C9 counterexample: with instance teardown failing, the
storage-teardown attempt and the final report are skipped entirely —
the failure is re-raised rather than logged, contradicting the claim
that either teardown is always attempted and the report always
produced. -/
theorem C9_counterexample :
    envDestroyFailX.destroyOk = false ∧
    (mainModel envDestroyFailX 1).destroyAttempted = true ∧
    (mainModel envDestroyFailX 1).deleteBucketAttempted = false ∧
    (mainModel envDestroyFailX 1).reported = false := by
  decide

theorem preUnitsAt_eq_filter (tr : List Ev) (L : Nat) :
    preUnitsAt tr L =
      ((levelEvents tr L).filter (fun e => e.phase == Phase.preTest)).map Ev.unit := by
  rw [preUnitsAt, levelEvents, List.filter_filter]

theorem filter_preTest_levelTrace (env : Env) (L : Nat) :
    (levelTrace env L).filter (fun e => e.phase == Phase.preTest) = preEvents L := by
  have h1 : (preEvents L).filter (fun e => e.phase == Phase.preTest) = preEvents L := by
    rw [List.filter_eq_self]
    intro e he
    simp only [preEvents, List.mem_map, List.mem_range] at he
    obtain ⟨j, _, rfl⟩ := he
    rfl
  have h2 : (execEvents L).filter (fun e => e.phase == Phase.preTest) = [] := by
    rw [List.filter_eq_nil_iff]
    intro e he
    simp only [execEvents, List.mem_map, List.mem_range] at he
    obtain ⟨j, _, rfl⟩ := he
    simp
  have h3 : (cleanupEvents env L).filter (fun e => e.phase == Phase.preTest) = [] := by
    rw [List.filter_eq_nil_iff]
    intro e he
    simp only [cleanupEvents, List.mem_map] at he
    obtain ⟨j, _, rfl⟩ := he
    simp
  unfold levelTrace
  rw [List.filter_append, h1]
  by_cases hp : prePhaseOk env L = true
  · rw [if_pos hp, List.filter_append, h2]
    by_cases he : execPhaseOk env L = true
    · rw [if_pos he, h3]
      simp
    · rw [if_neg he]
      simp
  · rw [if_neg hp]
    simp

theorem preEvents_units (L : Nat) : (preEvents L).map Ev.unit = List.range L := by
  have hcomp :
      (Ev.unit ∘ fun j => ({ phase := Phase.preTest, level := L, unit := j } : Ev)) = id :=
    rfl
  rw [preEvents, List.map_map, hcomp, List.map_id]

theorem preUnitsAt_mainTrace (env : Env) (clients L : Nat) (hL : 1 ≤ L)
    (hLc : L ≤ clients) (hs : setupPhaseOk env clients = true)
    (hall : (List.range' 1 (L - 1)).all (levelOk env) = true) :
    preUnitsAt (mainTrace env clients) L = List.range L := by
  rw [preUnitsAt_eq_filter, levelEvents_mainTrace env clients L hL hLc hs hall,
    filter_preTest_levelTrace, preEvents_units]

theorem all_range'_mono {p : Nat → Bool} {a b : Nat} (hab : a ≤ b)
    (h : (List.range' 1 b).all p = true) : (List.range' 1 a).all p = true := by
  rw [List.all_eq_true] at h ⊢
  intro i hi
  rw [mem_range'_iff] at hi
  exact h i (mem_range'_iff.mpr (by omega))

theorem range'_take_from (clients L : Nat) (h : L ≤ clients) :
    List.range' 1 clients = List.range' 1 L ++ List.range' (1 + L) (clients - L) := by
  have h2 := List.range'_append 1 L (clients - L) 1
  rw [show 1 * L = L from one_mul L] at h2
  rw [show clients - L + L = clients from by omega] at h2
  exact h2.symm

theorem mem_levelTrace_not_setup {env : Env} {i : Nat} {e : Ev}
    (h : e ∈ levelTrace env i) : e.phase ≠ Phase.setup := by
  unfold levelTrace at h
  rcases List.mem_append.mp h with h1 | h1
  · simp only [preEvents, List.mem_map, List.mem_range] at h1
    obtain ⟨j, _, rfl⟩ := h1
    simp
  · by_cases hp : prePhaseOk env i = true
    · rw [if_pos hp] at h1
      rcases List.mem_append.mp h1 with h2 | h2
      · simp only [execEvents, List.mem_map, List.mem_range] at h2
        obtain ⟨j, _, rfl⟩ := h2
        simp
      · by_cases he : execPhaseOk env i = true
        · rw [if_pos he] at h2
          simp only [cleanupEvents, List.mem_map] at h2
          obtain ⟨j, _, rfl⟩ := h2
          simp
        · rw [if_neg he] at h2
          simp at h2
    · rw [if_neg hp] at h1
      simp at h1

theorem mem_traceOfLevels_not_setup {env : Env} {e : Ev} :
    ∀ {ls : List Nat}, e ∈ traceOfLevels env ls → e.phase ≠ Phase.setup := by
  intro ls
  induction ls with
  | nil =>
    intro h
    simp [traceOfLevels] at h
  | cons i rest ih =>
    intro h
    unfold traceOfLevels at h
    rcases List.mem_append.mp h with h1 | h1
    · exact mem_levelTrace_not_setup h1
    · by_cases hOk : levelOk env i = true
      · rw [if_pos hOk] at h1
        exact ih h1
      · rw [if_neg hOk] at h1
        simp at h1

theorem mem_execAppends {env : Env} {i j : Nat} (hj : j < i)
    (hok : env.execOk i j = true) :
    env.execRes i j ∈ execAppends env i := by
  unfold execAppends
  rw [List.mem_filterMap]
  exact ⟨j, List.mem_range.mpr hj, by simp [hok]⟩

theorem levelOk_false_of_exec {env : Env} {i : Nat} (h : execPhaseOk env i = false) :
    levelOk env i = false := by
  unfold levelOk
  rw [h]
  simp

theorem averagesOfLevels_cons_fail (env : Env) (acc : List RunResult) (i : Nat)
    (rest : List Nat) (h : levelOk env i = false) :
    averagesOfLevels env acc (i :: rest) = [] := by
  unfold levelOk at h
  by_cases hp : prePhaseOk env i = true
  · by_cases he : execPhaseOk env i = true
    · have hc : cleanupPhaseOk env i = false := by
        rw [hp, he] at h
        simpa using h
      simp [averagesOfLevels, hp, he, hc]
    · simp [averagesOfLevels, hp, he]
  · simp [averagesOfLevels, hp]

/-- Claim C1 (corrected, amended): the `RunAverages` appended for level
`L` is a fresh `RunAverages(...)` construction on each iteration — no
incremental update of any earlier `RunAverages` — but its input is the
global `test_per_run_results` list, which `main` never clears between
levels: at level `L` it holds the measurements of every level `1..L`
(`accumThrough env L`), not only the `L` measurements of level `L`. -/
theorem C1_averages_use_global_accumulator (env : Env) (clients L : Nat)
    (hL : 1 ≤ L) (hLc : L ≤ clients)
    (hs : setupPhaseOk env clients = true)
    (hall : (List.range' 1 L).all (levelOk env) = true) :
    (mainModel env clients).state.averages[L - 1]? =
      some (mkRunAverages (accumThrough env L) L) := by
  rw [mainModel_averages env clients hs, range'_take_from clients L hLc,
    averagesOfLevels_append, if_pos hall, averagesOfLevels_range' env L hall]
  have hlen : ((List.range' 1 L).map
      (fun i => mkRunAverages (accumThrough env i) i)).length = L := by
    rw [List.length_map, List.length_range']
  rw [List.getElem?_append, if_pos (show L - 1 < _ from by rw [hlen]; omega),
    List.getElem?_map, List.getElem?_range' 1 1 (show L - 1 < L from by omega),
    show 1 + 1 * (L - 1) = L from by omega]
  rfl

/-- Claim C1 witness: `C1_averages_use_global_accumulator` at the
all-success two-client run `envOkX`. -/
theorem C1_averages_use_global_accumulator_witness :
    (mainModel envOkX 2).state.averages[1]? =
      some (mkRunAverages (accumThrough envOkX 2) 2) :=
  C1_averages_use_global_accumulator envOkX 2 2 (by decide) (by decide) (by decide)
    (by decide)

/-- Claim C1 counterexample: in the all-success two-client run, the
`RunAverages` appended for level 2 is computed over three measurements —
level 1's failed measurement `rFailX` included — not over exactly the
two level-2 measurements: its create-fail counter is 1, while the
aggregate of exactly the level-2 results has create-fail 0. -/
theorem C1_counterexample :
    (mainModel envOkX 2).state.averages[1]? =
      some (mkRunAverages [rFailX, rPassX, rPassY] 2) ∧
    execAppends envOkX 2 = [rPassX, rPassY] ∧
    (mkRunAverages [rFailX, rPassX, rPassY] 2).total_create_fail = 1 ∧
    (mkRunAverages [rPassX, rPassY] 2).total_create_fail = 0 ∧
    mkRunAverages [rFailX, rPassX, rPassY] 2 ≠ mkRunAverages [rPassX, rPassY] 2 := by
  decide

/-- Claim C4 (corrected, amended): when some unit's `execute_test`
worker at level `L` raises or times out, the phase fails: the ramp
aborts, and no `RunAverages` is built for level `L` or any later level
(the report covers exactly levels `1..L-1`, so partial measurements are
never aggregated).  However, the workers of the failed call that did
succeed have already appended their measurements to the shared
accumulator, which retains them. -/
theorem C4_failfast_no_partial_averages (env : Env) (clients L : Nat)
    (hL : 1 ≤ L) (hLc : L ≤ clients)
    (hatt : levelAttemptedB (mainTrace env clients) L = true)
    (hpre : prePhaseOk env L = true)
    (hfail : execPhaseOk env L = false) :
    ((mainModel env clients).state.averages.map RunAverages.run_id
        = List.range' 1 (L - 1)) ∧
    (∀ a ∈ (mainModel env clients).state.averages, a.run_id < L) ∧
    (∀ j, j < L → env.execOk L j = true →
      env.execRes L j ∈ (mainModel env clients).state.results) := by
  obtain ⟨hLc2, hs, hall⟩ := (levelAttemptedB_iff env clients L hL).mp hatt
  have hsplit := range'_split_at clients L hL hLc
  have hLok : levelOk env L = false := levelOk_false_of_exec hfail
  have havg : (mainModel env clients).state.averages
      = averagesOfLevels env [] (List.range' 1 (L - 1)) := by
    rw [mainModel_averages env clients hs, hsplit, averagesOfLevels_append,
      if_pos hall, List.range'_succ, averagesOfLevels_cons_fail env _ L _ hLok,
      List.append_nil]
  refine ⟨?_, ?_, ?_⟩
  · rw [havg, averagesOfLevels_run_id env _ _ hall]
  · intro a ha
    rw [havg] at ha
    have hmem : a.run_id ∈ List.range' 1 (L - 1) := by
      rw [← averagesOfLevels_run_id env _ [] hall]
      exact List.mem_map_of_mem RunAverages.run_id ha
    rw [mem_range'_iff] at hmem
    omega
  · intro j hj hok
    rw [mainModel_results env clients hs, hsplit, resultsOfLevels_append,
      if_pos hall, List.range'_succ]
    unfold resultsOfLevels
    rw [if_pos hpre, if_neg (by simp [hLok]), List.append_nil]
    exact List.mem_append.mpr (Or.inr (mem_execAppends hj hok))

/-- Claim C4 witness: `C4_failfast_no_partial_averages` at the run where
unit 1's `execute_test` fails at level 2: unit 0's level-2 measurement
is retained in the accumulator and the report stops at level 1. -/
theorem C4_failfast_no_partial_averages_witness :
    envExecFailX.execRes 2 0 ∈ (mainModel envExecFailX 2).state.results ∧
    (mainModel envExecFailX 2).state.averages.map RunAverages.run_id
      = List.range' 1 1 := by
  have h := C4_failfast_no_partial_averages envExecFailX 2 2 (by decide) (by decide)
    (by decide) (by decide) (by decide)
  exact ⟨h.2.2 0 (by decide) (by decide), h.1⟩

/-- Claim C4 counterexample: at level 2 of `envExecFailX` unit 1's
`execute_test` fails, yet the accumulator ends as
`[rFailX, rPassX]` where `rPassX` is unit 0's measurement from that
failed phase call — the claim says no measurement of any unit of the
failed call stays in the accumulator. -/
theorem C4_counterexample :
    execPhaseOk envExecFailX 2 = false ∧
    envExecFailX.execOk 2 0 = true ∧
    envExecFailX.execRes 2 0 = rPassX ∧
    (mainModel envExecFailX 2).state.results = [rFailX, rPassX] ∧
    execAppends envExecFailX 1 = [rFailX] ∧
    rPassX ≠ rFailX := by
  decide

/-- Claim C5 (confirmed): every attempted ramp level `L` engages exactly
the units of index `0..L-1` — the first `L` entries of
`test_object_list`, in their original order; for `L ≥ 2` they are the
previous level's units plus exactly the single new unit `L-1`, and the
previous level was attempted too; and attempted levels are downward
closed, every lower level's phase calls preceding level `L`'s in the
trace, so levels run in increasing order `1, 2, ...`. -/
theorem C5_prefix_ramp (env : Env) (clients L : Nat)
    (hL : 1 ≤ L) (hLc : L ≤ clients)
    (hatt : levelAttemptedB (mainTrace env clients) L = true) :
    preUnitsAt (mainTrace env clients) L = List.range L ∧
    (2 ≤ L →
      levelAttemptedB (mainTrace env clients) (L - 1) = true ∧
      preUnitsAt (mainTrace env clients) L
        = preUnitsAt (mainTrace env clients) (L - 1) ++ [L - 1]) ∧
    (∀ M, 1 ≤ M → M < L →
      levelAttemptedB (mainTrace env clients) M = true ∧
      ∃ t₁ t₂, mainTrace env clients = t₁ ++ t₂ ∧
        (∀ e ∈ t₁, e.level ≠ L) ∧ (∀ e ∈ t₂, e.level ≠ M)) := by
  obtain ⟨hLc2, hs, hall⟩ := (levelAttemptedB_iff env clients L hL).mp hatt
  refine ⟨preUnitsAt_mainTrace env clients L hL hLc hs hall, ?_, ?_⟩
  · intro h2L
    obtain ⟨K, rfl⟩ : ∃ K, L = K + 1 := ⟨L - 1, by omega⟩
    have hK1 : 1 ≤ K := by omega
    have hallK : (List.range' 1 (K - 1)).all (levelOk env) = true :=
      all_range'_mono (by omega) hall
    refine ⟨(levelAttemptedB_iff env clients K hK1).mpr ⟨by omega, hs, hallK⟩, ?_⟩
    rw [preUnitsAt_mainTrace env clients (K + 1) hL hLc hs hall,
      show K + 1 - 1 = K from rfl,
      preUnitsAt_mainTrace env clients K hK1 (by omega) hs hallK,
      List.range_succ]
  · intro M hM1 hML
    have hallM : (List.range' 1 (M - 1)).all (levelOk env) = true :=
      all_range'_mono (by omega) hall
    have hallM2 : (List.range' 1 M).all (levelOk env) = true :=
      all_range'_mono (by omega) hall
    refine ⟨(levelAttemptedB_iff env clients M hM1).mpr ⟨by omega, hs, hallM⟩,
      setupEvents clients ++ traceOfLevels env (List.range' 1 M),
      traceOfLevels env (List.range' (1 + M) (clients - M)), ?_, ?_, ?_⟩
    · rw [mainTrace_ok env clients hs, range'_take_from clients M (by omega),
        traceOfLevels_append, if_pos hallM2, List.append_assoc]
    · intro e he
      rcases List.mem_append.mp he with h1 | h1
      · rw [(mem_setupEvents h1).2]
        omega
      · have hlev := mem_traceOfLevels_level h1
        rw [mem_range'_iff] at hlev
        omega
    · intro e he
      have hlev := mem_traceOfLevels_level he
      rw [mem_range'_iff] at hlev
      omega

/-- Claim C5 witness: `C5_prefix_ramp` at the all-success two-client
run, level 2: the participants are `[0, 1]`, extending level 1's `[0]`
by the single new unit `1`. -/
theorem C5_prefix_ramp_witness :
    preUnitsAt (mainTrace envOkX 2) 2 = List.range 2 ∧
    preUnitsAt (mainTrace envOkX 2) 2 = preUnitsAt (mainTrace envOkX 2) 1 ++ [1] := by
  have h := C5_prefix_ramp envOkX 2 2 (by decide) (by decide) (by decide)
  exact ⟨h.1, (h.2.1 (by decide)).2⟩

/-- Claim C6 (confirmed): the one-time `setup_environment` warm-up opens
the trace and must have returned ok on every unit before anything else
runs; within an attempted level `L` the phases appear in the fixed order
`pre_test_setup`, `execute_test`, `cleanup`, each present only if the
preceding phase of that level returned ok on every participating unit;
and when level `L+1` is attempted, level `L` completed in full
(`cleanup` included) and every level-`L` call precedes every
level-`L+1` call. -/
theorem C6_phase_ordering (env : Env) (clients L : Nat) (hL : 1 ≤ L)
    (hatt : levelAttemptedB (mainTrace env clients) L = true) :
    setupPhaseOk env clients = true ∧
    (∃ rest, mainTrace env clients = setupEvents clients ++ rest ∧
      ∀ e ∈ rest, e.phase ≠ Phase.setup) ∧
    levelEvents (mainTrace env clients) L =
      preEvents L ++
        (if prePhaseOk env L then
          execEvents L ++ (if execPhaseOk env L then cleanupEvents env L else [])
        else []) ∧
    (levelAttemptedB (mainTrace env clients) (L + 1) = true →
      levelOk env L = true ∧
      ∃ t₁ t₂, mainTrace env clients = t₁ ++ t₂ ∧
        (∀ e ∈ t₁, e.level ≠ L + 1) ∧ (∀ e ∈ t₂, e.level ≠ L)) := by
  obtain ⟨hLc, hs, hall⟩ := (levelAttemptedB_iff env clients L hL).mp hatt
  refine ⟨hs, ⟨traceOfLevels env (List.range' 1 clients), mainTrace_ok env clients hs,
    fun e he => mem_traceOfLevels_not_setup he⟩, ?_, ?_⟩
  · rw [levelEvents_mainTrace env clients L hL hLc hs hall]
    rfl
  · intro hatt1
    obtain ⟨hLc1, _, hall1⟩ := (levelAttemptedB_iff env clients (L + 1) (by omega)).mp hatt1
    have hallL : (List.range' 1 L).all (levelOk env) = true := hall1
    have hLok : levelOk env L = true := by
      rw [List.all_eq_true] at hallL
      exact hallL L (mem_range'_iff.mpr (by omega))
    refine ⟨hLok, setupEvents clients ++ traceOfLevels env (List.range' 1 L),
      traceOfLevels env (List.range' (1 + L) (clients - L)), ?_, ?_, ?_⟩
    · rw [mainTrace_ok env clients hs, range'_take_from clients L (by omega),
        traceOfLevels_append, if_pos hallL, List.append_assoc]
    · intro e he
      rcases List.mem_append.mp he with h1 | h1
      · rw [(mem_setupEvents h1).2]
        omega
      · have hlev := mem_traceOfLevels_level h1
        rw [mem_range'_iff] at hlev
        omega
    · intro e he
      have hlev := mem_traceOfLevels_level he
      rw [mem_range'_iff] at hlev
      omega

/-- Claim C6 witness: `C6_phase_ordering` at the all-success two-client
run, level 1, with level 2 attempted. -/
theorem C6_phase_ordering_witness :
    setupPhaseOk envOkX 2 = true ∧ levelOk envOkX 1 = true := by
  have h := C6_phase_ordering envOkX 2 1 (by decide) (by decide)
  exact ⟨h.1, (h.2.2.2 (by decide)).1⟩

/-- Claim C8 (corrected, amended): when a phase of level `L` fails, no
event of any level beyond `L` occurs, no `RunAverages` entry is appended
for level `L` (the report's run ids are exactly `1..L-1`, empty when
`L = 1`), and — provided both teardown calls succeed — the run still
reports exactly the accumulated `RunAverages`.  (Without that proviso
the report is skipped: see the counterexample and claim C9.) -/
theorem C8_abort_and_final_report (env : Env) (clients L : Nat)
    (hL : 1 ≤ L) (hLc : L ≤ clients)
    (hatt : levelAttemptedB (mainTrace env clients) L = true)
    (hfail : levelOk env L = false) :
    (∀ e ∈ mainTrace env clients, e.level ≤ L) ∧
    ((mainModel env clients).state.averages.map RunAverages.run_id
        = List.range' 1 (L - 1)) ∧
    (L = 1 → (mainModel env clients).state.averages = []) ∧
    (env.destroyOk = true → env.deleteBucketOk = true →
      (mainModel env clients).reported = true ∧
      (mainModel env clients).report = (mainModel env clients).state.averages) := by
  obtain ⟨hLc2, hs, hall⟩ := (levelAttemptedB_iff env clients L hL).mp hatt
  have hsplit := range'_split_at clients L hL hLc
  have havg : (mainModel env clients).state.averages
      = averagesOfLevels env [] (List.range' 1 (L - 1)) := by
    rw [mainModel_averages env clients hs, hsplit, averagesOfLevels_append,
      if_pos hall, List.range'_succ, averagesOfLevels_cons_fail env _ L _ hfail,
      List.append_nil]
  refine ⟨?_, ?_, ?_, ?_⟩
  · intro e he
    rw [mainTrace_ok env clients hs, hsplit, traceOfLevels_append, if_pos hall,
      List.range'_succ] at he
    simp only [traceOfLevels] at he
    rw [if_neg (by simp [hfail])] at he
    rcases List.mem_append.mp he with h1 | h1
    · rw [(mem_setupEvents h1).2]
      omega
    · rcases List.mem_append.mp h1 with h2 | h2
      · have hlev := mem_traceOfLevels_level h2
        rw [mem_range'_iff] at hlev
        omega
      · rw [List.append_nil] at h2
        rw [mem_levelTrace_level h2]
  · rw [havg, averagesOfLevels_run_id env _ _ hall]
  · intro hL1
    subst hL1
    rw [havg]
    rfl
  · intro hd hb
    have h := mainModel_teardown_eq env clients
    refine ⟨?_, ?_⟩
    · rw [h.2.2.1, hd, hb]
      rfl
    · exact h.2.2.2 (by rw [h.2.2.1, hd, hb]; rfl)

/-- Claim C8 witness: `C8_abort_and_final_report` at the run whose
level-2 `execute_test` fails with both teardowns succeeding: the report
covers exactly level 1 and is produced. -/
theorem C8_abort_and_final_report_witness :
    (mainModel envExecFailX 2).state.averages.map RunAverages.run_id
      = List.range' 1 1 ∧
    (mainModel envExecFailX 2).reported = true := by
  have h := C8_abort_and_final_report envExecFailX 2 2 (by decide) (by decide)
    (by decide) (by decide)
  exact ⟨h.2.1, (h.2.2.2 (by decide) (by decide)).1⟩

/-- Claim C8 counterexample: a run whose level-1 `pre_test_setup` fails
and whose instance teardown then also fails never reports at all — the
claim's unconditional "the run still returns (and reports)" is false on
the code, because the report call sits after the unguarded teardown
calls. -/
theorem C8_counterexample :
    levelAttemptedB (mainTrace envPreFailX 1) 1 = true ∧
    prePhaseOk envPreFailX 1 = false ∧
    (mainModel envPreFailX 1).state.averages = [] ∧
    (mainModel envPreFailX 1).reported = false ∧
    (mainModel envPreFailX 1).report = [] := by
  decide

end CloudRunner
